import Mathlib

/-!
Shallow embedding of the metrics-notifier repository (Rust) in Lean 4.

Modelling conventions:
* `f64` sample values and `BigDecimal` intermediates are modelled as exact
  rationals (`ℚ`).  All sample values occurring in the program are finite
  IEEE doubles, which embed into `ℚ`; `f64::min`/`f64::max` on finite
  doubles agree with the rational `min`/`max`, `BigDecimal::from_f64` is
  exact on finite doubles, and `BigDecimal` addition is exact.  The final
  `BigDecimal` division and `to_f64` conversion are modelled as exact
  rational division (`toF64` below).
* Machine integers: `Vec::len` is a `Nat`; the `u32::try_from(len)` check
  is modelled explicitly as a `length < 2 ^ 32` test.
* Instants (`chrono::DateTime<Utc>`) are seconds since the Unix epoch as
  unbounded `Int`; the calendar operations of the `chrono` library
  (proleptic Gregorian) are modelled by the standard civil-calendar
  conversion algorithms `daysFromCivil` / `civilFromDays`.
* Fallible Rust code returns `Except`; `Option::ok_or` is `okOr`.
-/

/-- Error enum from `src/error.rs` (`MetricsNotifierError`).  The two
variants wrapping provider errors (`GetMetricsError`, `DescribeInstancesError`)
carry an opaque payload in the source; the payload is abstracted away here
since no code under verification constructs or inspects it. -/
inductive MetricsNotifierError where
  | NoneValue
  | ToPrimitive
  | TryFromIntError
  | GetMetricsError
  | DescribeInstancesError
  deriving DecidableEq

/-- Sample type from `rusoto_cloudwatch::Datapoint`, restricted to the three
fields read by `aggregate_data_points` (the remaining fields
`extended_statistics`, `sample_count`, `sum`, `timestamp`, `unit` are never
read by the code under verification). -/
structure Datapoint where
  average : Option ℚ
  minimum : Option ℚ
  maximum : Option ℚ
  deriving DecidableEq

/-- Result type from `src/metric.rs` (`AggregatedMetrics`). -/
structure AggregatedMetrics where
  average : ℚ
  maximum : ℚ
  minimum : ℚ
  deriving DecidableEq

/-- The `Default` impl for `AggregatedMetrics` in `src/metric.rs`: all fields `0.0`. -/
def AggregatedMetrics.default : AggregatedMetrics :=
  { average := 0, maximum := 0, minimum := 0 }

/-- Rust `Option::ok_or`. -/
def okOr (o : Option α) (e : MetricsNotifierError) : Except MetricsNotifierError α :=
  match o with
  | some a => Except.ok a
  | none => Except.error e

/-- BigDecimal `to_f64` from the final step of `aggregate_data_points`.
In the `bigdecimal` crate this returns an `Option`; in the exact-rational
model the conversion always succeeds and is exact. -/
def toF64 (q : ℚ) : Option ℚ := some q

/-- Loop body of `CloudWatchMetricsClient::aggregate_data_points`
(`src/src/cloud_watch_metrics_client.rs`, the `for data_point in data_points`
loop): accumulates the decimal sum of `average` fields, the running `minimum`
and the running `maximum`, failing with `NoneValue` on the first absent field
(the source checks `average`, then `minimum`, then `maximum`).
`BigDecimal::from_f64(average)` is exact on the finite doubles of the model,
so its `map_or(BigDecimal::from(0), ..)` fallback never fires. -/
def aggLoop : List Datapoint → ℚ → ℚ → ℚ → Except MetricsNotifierError (ℚ × ℚ × ℚ)
  | [], total, minimum, maximum => Except.ok (total, minimum, maximum)
  | dp :: rest, total, minimum, maximum =>
    match dp.average with
    | none => Except.error MetricsNotifierError.NoneValue
    | some average =>
      match dp.minimum with
      | none => Except.error MetricsNotifierError.NoneValue
      | some mn =>
        match dp.maximum with
        | none => Except.error MetricsNotifierError.NoneValue
        | some mx => aggLoop rest (total + average) (min minimum mn) (max maximum mx)

/-- `CloudWatchMetricsClient::aggregate_data_points` from
`src/src/cloud_watch_metrics_client.rs`:
`data_points.map_or(vec![], ..)`, the `is_empty` early return of
`AggregatedMetrics::default()`, the `u32::try_from(data_points.len())?`
check (modelled as `length < 2 ^ 32`), the accumulation loop starting from
`total = 0`, `minimum = 100.0`, `maximum = 0.0`, the decimal division
`total / count`, and the `to_f64().ok_or(ToPrimitive)` conversion. -/
def aggregate_data_points (data_points : Option (List Datapoint)) :
    Except MetricsNotifierError AggregatedMetrics :=
  let dps := data_points.getD []
  if dps.length = 0 then Except.ok AggregatedMetrics.default
  else if dps.length < 2 ^ 32 then
    match aggLoop dps 0 100 0 with
    | Except.error e => Except.error e
    | Except.ok (total, minimum, maximum) =>
      match toF64 (total / (dps.length : ℚ)) with
      | none => Except.error MetricsNotifierError.ToPrimitive
      | some average => Except.ok { average := average, maximum := maximum, minimum := minimum }
  else Except.error MetricsNotifierError.TryFromIntError

/-! Civil (proleptic Gregorian) calendar arithmetic, modelling the `chrono`
operations used by `TimeRange::try_from`: dates are interconverted with day
numbers counted from the Unix epoch (1970-01-01) by the standard
era-decomposition algorithms. -/

/-- Day of year (counted from March 1st) of the first day of shifted month
`mp` (`mp = 0` is March, `mp = 11` is February). -/
def doyFromMp (mp : Nat) : Nat := (153 * mp + 2) / 5

/-- Shifted month (`0` = March … `11` = February) from day of year counted
from March 1st. -/
def mpFromDoy (doy : Nat) : Nat := (5 * doy + 2) / 153

/-- Year of era (`0 ≤ yoe ≤ 399`) from day of era (`0 ≤ doe ≤ 146096`). -/
def yoeFromDoe (doe : Nat) : Nat :=
  (doe - doe / 1460 + doe / 36524 - doe / 146096) / 365

/-- First day of era (counted from March 1st of year 0 of the era) of year
of era `yoe`. -/
def doeFromYoe (yoe : Nat) : Nat := yoe * 365 + yoe / 4 - yoe / 100

/-- Gregorian leap-year predicate for (proleptic) calendar year `y`. -/
def isLeap (y : Int) : Prop := (y % 4 = 0 ∧ y % 100 ≠ 0) ∨ y % 400 = 0

instance (y : Int) : Decidable (isLeap y) :=
  inferInstanceAs (Decidable (_ ∨ _))

/-- Number of days of calendar month `m` (`1 ≤ m ≤ 12`) of year `y`. -/
def monthLength (y : Int) (m : Nat) : Nat :=
  if m = 2 then (if isLeap y then 29 else 28)
  else if m = 4 ∨ m = 6 ∨ m = 9 ∨ m = 11 then 30
  else 31

/-- Within an era, the March-to-February year numbered `yoe` has 366 days
exactly when this predicate holds (its February falls in calendar year
`yoe + 1` relative to the era start, and era starts are multiples of 400). -/
def yoeLeap (yoe : Nat) : Prop :=
  ((yoe + 1) % 4 = 0 ∧ (yoe + 1) % 100 ≠ 0) ∨ yoe = 399

instance (yoe : Nat) : Decidable (yoeLeap yoe) :=
  inferInstanceAs (Decidable (_ ∨ _))

/-- Length in days of the March-to-February year `yoe` of an era. -/
def yoeLen (yoe : Nat) : Nat := if yoeLeap yoe then 366 else 365

/-- Number of days of the shifted month `mp` (`0` = March … `11` = February),
with the leap flag `lp` giving February (`mp = 11`) 29 days. -/
def shiftedMonthLength (mp : Nat) (lp : Bool) : Nat :=
  if mp = 11 then (if lp then 29 else 28)
  else if mp = 1 ∨ mp = 3 ∨ mp = 6 ∨ mp = 8 then 30
  else 31

/-- Days since the Unix epoch of the civil date `(y, m, d)` (Hinnant's
`days_from_civil`, the standard model of `chrono`'s proleptic Gregorian
date line; `1 ≤ m ≤ 12`, `1 ≤ d ≤ monthLength y m`). -/
def daysFromCivil (y : Int) (m d : Nat) : Int :=
  let ys : Int := if m ≤ 2 then y - 1 else y
  let era : Int := ys / 400
  let yoe : Nat := (ys % 400).toNat
  let mp : Nat := if 2 < m then m - 3 else m + 9
  let doy : Nat := (153 * mp + 2) / 5 + d - 1
  let doe : Nat := yoe * 365 + yoe / 4 - yoe / 100 + doy
  era * 146097 + (doe : Int) - 719468

/-- Civil date `(y, m, d)` of a day number counted from the Unix epoch
(Hinnant's `civil_from_days`). -/
def civilFromDays (z : Int) : Int × Nat × Nat :=
  let z' := z + 719468
  let era : Int := z' / 146097
  let doe : Nat := (z' % 146097).toNat
  let yoe : Nat := yoeFromDoe doe
  let y : Int := (yoe : Int) + era * 400
  let doy : Nat := doe - (365 * yoe + yoe / 4 - yoe / 100)
  let mp : Nat := mpFromDoy doy
  let d : Nat := doy - (153 * mp + 2) / 5 + 1
  let m : Nat := if mp < 10 then mp + 3 else mp - 9
  (if m ≤ 2 then y + 1 else y, m, d)

/-- The fixed offset `FixedOffset::east(9 * 3600)` (UTC+9) used by
`TimeRange::try_from`, in seconds. -/
def tokyoOffset : Int := 9 * 3600

/-- Local civil date of an instant `t` (seconds since the Unix epoch) under
the fixed UTC+9 offset: `chrono`'s `date_time.with_timezone(&tokyo)`
followed by `year()` / `month()` / `day()`. -/
def localCivil (t : Int) : Int × Nat × Nat :=
  civilFromDays ((t + tokyoOffset) / 86400)

/-- Seconds past local midnight of an instant `t` under the fixed UTC+9
offset (0 for a local wall clock of 00:00:00, 86399 for 23:59:59). -/
def localSecondOfDay (t : Int) : Int := (t + tokyoOffset) % 86400

/-- The `TimeRange` struct from `src/src/time_range.rs`: a pair of UTC
instants.  The source field `end` is a Lean keyword, so it is called
`stop` here. -/
structure TimeRange where
  start : Int
  stop : Int
  deriving DecidableEq

/-- TimeRange::last_day_of_month from `src/src/time_range.rs`:
`NaiveDate::from_ymd_opt(year, month + 1, 1)` (which is `None` exactly when
`month + 1` is not a valid month, i.e. when `month = 12` for in-range
months), `unwrap_or(NaiveDate::from_ymd(year + 1, 1, 1))`, `.pred().day()`. -/
def TimeRange.last_day_of_month (year : Int) (month : Nat) : Nat :=
  let firstOfNext : Int :=
    if 1 ≤ month + 1 ∧ month + 1 ≤ 12 then daysFromCivil year (month + 1) 1
    else daysFromCivil (year + 1) 1 1
  (civilFromDays (firstOfNext - 1)).2.2

/-- chrono `offset.from_local_datetime(&naive).single()` for a fixed numeric
offset: `FixedOffset`'s `offset_from_local_datetime` always returns
`LocalResult::Single`, so the resolution yields exactly one absolute
instant, local wall-clock seconds minus the offset. -/
def fromLocalSingle (offset : Int) (localSeconds : Int) : Option Int :=
  some (localSeconds - offset)

/-- TimeRange::try_from from `src/src/time_range.rs`: convert the reference
instant to the fixed UTC+9 offset, build the local first-of-month 00:00:00
and last-of-month 23:59:59 wall-clock times, resolve each back to an
absolute instant (`single().ok_or(NoneValue)`), and return both as UTC. -/
def TimeRange.try_from (date_time : Int) : Except MetricsNotifierError TimeRange :=
  let c := localCivil date_time
  match fromLocalSingle tokyoOffset (daysFromCivil c.1 c.2.1 1 * 86400) with
  | none => Except.error MetricsNotifierError.NoneValue
  | some start =>
    match fromLocalSingle tokyoOffset
        (daysFromCivil c.1 c.2.1 (TimeRange.last_day_of_month c.1 c.2.1) * 86400
          + (23 * 3600 + 59 * 60 + 59)) with
    | none => Except.error MetricsNotifierError.NoneValue
    | some stop => Except.ok { start := start, stop := stop }

/-! Near-duplicate draft from `src/src/client.rs`: the same time-range and
aggregation algorithms re-expressed under the error type name
`MetricsClientError`. -/

/-- Modelled from the spec: `MetricsClientError`, the error type name used
by the draft in `src/src/client.rs`, whose definition is absent from the
snapshot (only its uses appear: variants `NoneValue`, `ToPrimitive` and a
`From<TryFromIntError>` conversion).  Per the spec the drafts differ from
the final components only in the error type's name, so the enum mirrors
`MetricsNotifierError` variant for variant. -/
inductive MetricsClientError where
  | NoneValue
  | ToPrimitive
  | TryFromIntError
  | GetMetricsError
  | DescribeInstancesError
  deriving DecidableEq

/-- Renaming of `MetricsNotifierError` to the draft's `MetricsClientError`
(the two enums differ only in their name). -/
def errRename : MetricsNotifierError → MetricsClientError
  | MetricsNotifierError.NoneValue => MetricsClientError.NoneValue
  | MetricsNotifierError.ToPrimitive => MetricsClientError.ToPrimitive
  | MetricsNotifierError.TryFromIntError => MetricsClientError.TryFromIntError
  | MetricsNotifierError.GetMetricsError => MetricsClientError.GetMetricsError
  | MetricsNotifierError.DescribeInstancesError => MetricsClientError.DescribeInstancesError

/-- The private `TimeRange` struct that `src/src/client.rs` declares for
itself (same two fields as the one in `src/src/time_range.rs`). -/
structure ClientTimeRange where
  start : Int
  stop : Int
  deriving DecidableEq

/-- Field-for-field conversion between the two structurally identical
`TimeRange` structs. -/
def timeRangeToClient (r : TimeRange) : ClientTimeRange :=
  { start := r.start, stop := r.stop }

/-- The `AggregatedMetrics` struct that `src/src/client.rs` declares for
itself (same three fields as the one in `src/src/metric.rs`). -/
structure ClientAggregatedMetrics where
  average : ℚ
  maximum : ℚ
  minimum : ℚ
  deriving DecidableEq

/-- The `Default` impl for the draft's `AggregatedMetrics` in `src/src/client.rs`. -/
def ClientAggregatedMetrics.default : ClientAggregatedMetrics :=
  { average := 0, maximum := 0, minimum := 0 }

/-- Field-for-field conversion between the two structurally identical
`AggregatedMetrics` structs. -/
def metricsToClient (r : AggregatedMetrics) : ClientAggregatedMetrics :=
  { average := r.average, maximum := r.maximum, minimum := r.minimum }

/-- TimeRange::last_day_of_month as written (identically) in `src/src/client.rs`. -/
def ClientTimeRange.last_day_of_month (year : Int) (month : Nat) : Nat :=
  let firstOfNext : Int :=
    if 1 ≤ month + 1 ∧ month + 1 ≤ 12 then daysFromCivil year (month + 1) 1
    else daysFromCivil (year + 1) 1 1
  (civilFromDays (firstOfNext - 1)).2.2

/-- TimeRange::try_from as written in `src/src/client.rs` (token-for-token
the algorithm of `src/src/time_range.rs`, with `MetricsClientError` as the
error type). -/
def ClientTimeRange.try_from (date_time : Int) : Except MetricsClientError ClientTimeRange :=
  let c := localCivil date_time
  match fromLocalSingle tokyoOffset (daysFromCivil c.1 c.2.1 1 * 86400) with
  | none => Except.error MetricsClientError.NoneValue
  | some start =>
    match fromLocalSingle tokyoOffset
        (daysFromCivil c.1 c.2.1 (ClientTimeRange.last_day_of_month c.1 c.2.1) * 86400
          + (23 * 3600 + 59 * 60 + 59)) with
    | none => Except.error MetricsClientError.NoneValue
    | some stop => Except.ok { start := start, stop := stop }

/-- Loop body of `MetricsClient::aggregate_data_points` in `src/src/client.rs`
(identical to the loop of `CloudWatchMetricsClient::aggregate_data_points` up
to the error type). -/
def clientAggLoop : List Datapoint → ℚ → ℚ → ℚ → Except MetricsClientError (ℚ × ℚ × ℚ)
  | [], total, minimum, maximum => Except.ok (total, minimum, maximum)
  | dp :: rest, total, minimum, maximum =>
    match dp.average with
    | none => Except.error MetricsClientError.NoneValue
    | some average =>
      match dp.minimum with
      | none => Except.error MetricsClientError.NoneValue
      | some mn =>
        match dp.maximum with
        | none => Except.error MetricsClientError.NoneValue
        | some mx => clientAggLoop rest (total + average) (min minimum mn) (max maximum mx)

/-- MetricsClient::aggregate_data_points from `src/src/client.rs` (identical
algorithm to `CloudWatchMetricsClient::aggregate_data_points`, differing
only in the error type's name). -/
def client_aggregate_data_points (data_points : Option (List Datapoint)) :
    Except MetricsClientError ClientAggregatedMetrics :=
  let dps := data_points.getD []
  if dps.length = 0 then Except.ok ClientAggregatedMetrics.default
  else if dps.length < 2 ^ 32 then
    match clientAggLoop dps 0 100 0 with
    | Except.error e => Except.error e
    | Except.ok (total, minimum, maximum) =>
      match toF64 (total / (dps.length : ℚ)) with
      | none => Except.error MetricsClientError.ToPrimitive
      | some average => Except.ok { average := average, maximum := maximum, minimum := minimum }
  else Except.error MetricsClientError.TryFromIntError

/-- All three statistic fields of every sample in the list are present
(the condition under which the aggregation loop succeeds). -/
def allPresent (l : List Datapoint) : Bool :=
  l.all fun dp => dp.average.isSome && dp.minimum.isSome && dp.maximum.isSome

/-- Average values of a sample list (with `getD 0` for the absent case,
which the aggregation lemmas only use under an all-present hypothesis). -/
def avgVals (l : List Datapoint) : List ℚ := l.map fun dp => dp.average.getD 0

/-- Minimum values of a sample list. -/
def minVals (l : List Datapoint) : List ℚ := l.map fun dp => dp.minimum.getD 0

/-- Maximum values of a sample list. -/
def maxVals (l : List Datapoint) : List ℚ := l.map fun dp => dp.maximum.getD 0

instance : RightCommutative (min : ℚ → ℚ → ℚ) := ⟨fun b a₁ a₂ => min_right_comm b a₁ a₂⟩

instance : RightCommutative (max : ℚ → ℚ → ℚ) :=
  ⟨fun b a₁ a₂ => by rw [max_assoc, max_comm a₁ a₂, ← max_assoc]⟩

deriving instance DecidableEq for Except

/-! Helper lemmas about the aggregation loop. -/

/-- The aggregation loop as a pure fold: it succeeds exactly when every
field of every sample is present, summing the averages and folding
`min` / `max` over the per-sample minimums and maximums. -/
theorem aggLoop_eq (l : List Datapoint) (t mn mx : ℚ) :
    aggLoop l t mn mx =
      if allPresent l then
        Except.ok (t + (avgVals l).sum, (minVals l).foldl min mn, (maxVals l).foldl max mx)
      else Except.error MetricsNotifierError.NoneValue := by
  induction l generalizing t mn mx with
  | nil => simp [aggLoop, allPresent, avgVals, minVals, maxVals]
  | cons dp rest ih =>
    rcases ha : dp.average with _ | a <;> rcases hb : dp.minimum with _ | b <;>
      rcases hc : dp.maximum with _ | c <;>
      simp [aggLoop, allPresent, avgVals, minVals, maxVals, ha, hb, hc, ih]
    all_goals ring_nf

/-- Folding `min` over a list never exceeds the initial accumulator. -/
theorem foldl_min_le_init (l : List ℚ) (a : ℚ) : l.foldl min a ≤ a := by
  induction l generalizing a with
  | nil => simp
  | cons x xs ih => exact le_trans (ih (min a x)) (min_le_left a x)

/-- Folding `min` over a list is a lower bound of every element. -/
theorem foldl_min_le_mem (l : List ℚ) (a x : ℚ) (hx : x ∈ l) : l.foldl min a ≤ x := by
  induction l generalizing a with
  | nil => simp at hx
  | cons y ys ih =>
    rcases List.mem_cons.mp hx with h | h
    · subst h
      exact le_trans (foldl_min_le_init ys (min a x)) (min_le_right a x)
    · exact ih (min a y) h

/-- Folding `min` over a list yields the accumulator or one of the elements. -/
theorem foldl_min_attained (l : List ℚ) (a : ℚ) : l.foldl min a = a ∨ l.foldl min a ∈ l := by
  induction l generalizing a with
  | nil => simp
  | cons x xs ih =>
    rcases ih (min a x) with h | h
    · rcases min_choice a x with h2 | h2
      · left
        rw [List.foldl_cons, h, h2]
      · right
        rw [List.foldl_cons, h, h2]
        exact List.mem_cons_self x xs
    · right
      rw [List.foldl_cons]
      exact List.mem_cons_of_mem x h

/-- Folding `max` over a list is at least the initial accumulator. -/
theorem foldl_max_init_le (l : List ℚ) (a : ℚ) : a ≤ l.foldl max a := by
  induction l generalizing a with
  | nil => simp
  | cons x xs ih => exact le_trans (le_max_left a x) (ih (max a x))

/-- Folding `max` over a list is an upper bound of every element. -/
theorem foldl_max_mem_le (l : List ℚ) (a x : ℚ) (hx : x ∈ l) : x ≤ l.foldl max a := by
  induction l generalizing a with
  | nil => simp at hx
  | cons y ys ih =>
    rcases List.mem_cons.mp hx with h | h
    · subst h
      exact le_trans (le_max_right a x) (foldl_max_init_le ys (max a x))
    · exact ih (max a y) h

/-- Folding `max` over a list yields the accumulator or one of the elements. -/
theorem foldl_max_attained (l : List ℚ) (a : ℚ) : l.foldl max a = a ∨ l.foldl max a ∈ l := by
  induction l generalizing a with
  | nil => simp
  | cons x xs ih =>
    rcases ih (max a x) with h | h
    · rcases max_choice a x with h2 | h2
      · left
        rw [List.foldl_cons, h, h2]
      · right
        rw [List.foldl_cons, h, h2]
        exact List.mem_cons_self x xs
    · right
      rw [List.foldl_cons]
      exact List.mem_cons_of_mem x h

/-- Presence of all fields is invariant under permutation of the samples. -/
theorem allPresent_of_perm (l₁ l₂ : List Datapoint) (h : l₁.Perm l₂) :
    allPresent l₁ = allPresent l₂ := by
  rw [Bool.eq_iff_iff]
  simp only [allPresent, List.all_eq_true]
  constructor
  · intro H dp hdp
    exact H dp (h.mem_iff.mpr hdp)
  · intro H dp hdp
    exact H dp (h.mem_iff.mp hdp)

/-- The draft aggregation loop of `client.rs` equals the final one up to
renaming the error type. -/
theorem clientAggLoop_eq_mapError (l : List Datapoint) (t mn mx : ℚ) :
    clientAggLoop l t mn mx = Except.mapError errRename (aggLoop l t mn mx) := by
  induction l generalizing t mn mx with
  | nil => rfl
  | cons dp rest ih =>
    rcases ha : dp.average with _ | a <;> rcases hb : dp.minimum with _ | b <;>
      rcases hc : dp.maximum with _ | c <;>
      simp [clientAggLoop, aggLoop, ha, hb, hc, ih, Except.mapError, errRename]

/-- Concrete evaluation of the aggregator on one fully populated sample. -/
theorem aggregate_eval_single :
    aggregate_data_points (some [{ average := some 4, minimum := some 6, maximum := some 8 }]) =
      Except.ok { average := 4, maximum := 8, minimum := 6 } := by
  simp [aggregate_data_points, aggLoop, toF64]
  norm_num [min_def, max_def]

/-! Helper lemmas for the civil-calendar arithmetic. -/

/-- Year-of-era recovery is monotone in the day of era. -/
theorem yoeFromDoe_mono : Monotone yoeFromDoe := by
  apply monotone_nat_of_le_succ
  intro n
  apply Nat.div_le_div_right
  omega

set_option maxRecDepth 8000 in
/-- Year-of-era recovery is correct at the first and last day of each of
the 400 years of an era, and every year ends within the era. -/
theorem yoe_endpoints : ∀ yoe : Nat, yoe < 400 →
    yoeFromDoe (doeFromYoe yoe) = yoe ∧
    yoeFromDoe (doeFromYoe yoe + yoeLen yoe - 1) = yoe ∧
    doeFromYoe yoe + yoeLen yoe ≤ 146097 := by decide

set_option maxRecDepth 8000 in
/-- Consecutive era years are contiguous: each starts right after the
previous one ends. -/
theorem yoe_contig : ∀ yoe : Nat, yoe < 399 →
    doeFromYoe (yoe + 1) = doeFromYoe yoe + yoeLen yoe := by decide

/-- Year-of-era recovery is correct on every day of every era year
(monotonicity squeezed between the two correct endpoints). -/
theorem yoe_squeeze (yoe doy : Nat) (h4 : yoe < 400) (hd : doy < yoeLen yoe) :
    yoeFromDoe (doeFromYoe yoe + doy) = yoe := by
  have h1 := (yoe_endpoints yoe h4).1
  have h2 := (yoe_endpoints yoe h4).2.1
  have lo : yoeFromDoe (doeFromYoe yoe) ≤ yoeFromDoe (doeFromYoe yoe + doy) :=
    yoeFromDoe_mono (by omega)
  have hi : yoeFromDoe (doeFromYoe yoe + doy) ≤ yoeFromDoe (doeFromYoe yoe + yoeLen yoe - 1) :=
    yoeFromDoe_mono (by omega)
  omega

/-- Every day of era belongs to the era year that the recovery function
assigns to it. -/
theorem yoe_decode (doe : Nat) (h : doe ≤ 146096) :
    yoeFromDoe doe < 400 ∧ doeFromYoe (yoeFromDoe doe) ≤ doe ∧
    doe - doeFromYoe (yoeFromDoe doe) < yoeLen (yoeFromDoe doe) := by
  obtain ⟨k, hk⟩ : ∃ k, yoeFromDoe doe = k := ⟨_, rfl⟩
  rw [hk]
  have htop : yoeFromDoe 146096 = 399 := by decide
  have hle : k ≤ 399 := by
    rw [← hk, ← htop]
    exact yoeFromDoe_mono h
  have hlow : doeFromYoe k ≤ doe := by
    by_contra hlt
    push_neg at hlt
    have hkpos : 1 ≤ k := by
      by_contra h0
      push_neg at h0
      have hk0 : k = 0 := by omega
      rw [hk0] at hlt
      have : doeFromYoe 0 = 0 := by decide
      omega
    have hc := yoe_contig (k - 1) (by omega)
    have hk1 : k - 1 + 1 = k := by omega
    rw [hk1] at hc
    have he := (yoe_endpoints (k - 1) (by omega)).2.1
    have hmono : yoeFromDoe doe ≤ yoeFromDoe (doeFromYoe (k - 1) + yoeLen (k - 1) - 1) :=
      yoeFromDoe_mono (by omega)
    rw [hk, he] at hmono
    omega
  refine ⟨by omega, hlow, ?_⟩
  by_contra hge
  push_neg at hge
  rcases Nat.lt_or_ge k 399 with h399 | h399
  · have hc := yoe_contig k h399
    have he := (yoe_endpoints (k + 1) (by omega)).1
    have hmono : yoeFromDoe (doeFromYoe (k + 1)) ≤ yoeFromDoe doe :=
      yoeFromDoe_mono (by omega)
    rw [hk, he] at hmono
    omega
  · have hk399 : k = 399 := by omega
    have hlen : yoeLen 399 = 366 := by decide
    have hdoe399 : doeFromYoe 399 = 145731 := by decide
    rw [hk399] at hge hlow
    omega

set_option maxRecDepth 4000 in
/-- Shifted-month recovery is correct on every valid (shifted month, day)
pair, and the day of year stays within the era year. -/
theorem mp_encode : ∀ (b : Bool), ∀ mp : Nat, mp < 12 → ∀ dm1 : Nat, dm1 < 31 →
    dm1 < shiftedMonthLength mp b →
    mpFromDoy (doyFromMp mp + dm1) = mp ∧
    doyFromMp mp + dm1 < (if b then 366 else 365) := by decide

set_option maxRecDepth 8000 in
/-- Every day of an era year falls inside the shifted month that the
recovery function assigns to it. -/
theorem mp_decode : ∀ (b : Bool), ∀ doy : Nat, doy < (if b then 366 else 365) →
    mpFromDoy doy < 12 ∧ doyFromMp (mpFromDoy doy) ≤ doy ∧
    doy - doyFromMp (mpFromDoy doy) < shiftedMonthLength (mpFromDoy doy) b := by decide

/-- Correspondence between the Gregorian leap predicate of the calendar
year `ys + 1` (the year holding the February of shifted year `ys`) and
the within-era leap predicate of the era year of `ys`. -/
theorem isLeap_iff_yoeLeap (ys : Int) : isLeap (ys + 1) ↔ yoeLeap (ys % 400).toNat := by
  unfold isLeap yoeLeap
  omega

/-- Every month has at least one day. -/
theorem monthLength_pos (y : Int) (m : Nat) : 1 ≤ monthLength y m := by
  unfold monthLength
  split_ifs <;> omega

/-- For months other than February the calendar month length agrees with
the shifted-month length, with any leap flag. -/
theorem monthLength_eq_shifted (y : Int) (b : Bool) (m : Nat) (h1 : 1 ≤ m) (h2 : m ≤ 12)
    (h3 : m ≠ 2) :
    monthLength y m = shiftedMonthLength (if 2 < m then m - 3 else m + 9) b := by
  interval_cases m <;> simp [monthLength, shiftedMonthLength]
  exact absurd rfl h3

/-- No month has more than 31 days. -/
theorem shiftedMonthLength_le (mp : Nat) (b : Bool) : shiftedMonthLength mp b ≤ 31 := by
  unfold shiftedMonthLength
  split_ifs <;> omega

/-- Unfolding `civilFromDays` on a day number presented in era form. -/
theorem civilFromDays_decode (era : Int) (doe : Nat) (h : doe ≤ 146096) :
    civilFromDays (era * 146097 + (doe : Int) - 719468) =
      (if (if mpFromDoy (doe - (365 * yoeFromDoe doe + yoeFromDoe doe / 4 - yoeFromDoe doe / 100)) < 10 then
            mpFromDoy (doe - (365 * yoeFromDoe doe + yoeFromDoe doe / 4 - yoeFromDoe doe / 100)) + 3
          else mpFromDoy (doe - (365 * yoeFromDoe doe + yoeFromDoe doe / 4 - yoeFromDoe doe / 100)) - 9) ≤ 2 then
        (yoeFromDoe doe : Int) + era * 400 + 1
      else (yoeFromDoe doe : Int) + era * 400,
      (if mpFromDoy (doe - (365 * yoeFromDoe doe + yoeFromDoe doe / 4 - yoeFromDoe doe / 100)) < 10 then
        mpFromDoy (doe - (365 * yoeFromDoe doe + yoeFromDoe doe / 4 - yoeFromDoe doe / 100)) + 3
      else mpFromDoy (doe - (365 * yoeFromDoe doe + yoeFromDoe doe / 4 - yoeFromDoe doe / 100)) - 9),
      doe - (365 * yoeFromDoe doe + yoeFromDoe doe / 4 - yoeFromDoe doe / 100)
        - (153 * mpFromDoy (doe - (365 * yoeFromDoe doe + yoeFromDoe doe / 4 - yoeFromDoe doe / 100)) + 2) / 5 + 1) := by
  have h1 : era * 146097 + (doe : Int) - 719468 + 719468 = era * 146097 + (doe : Int) := by ring
  have h2 : (era * 146097 + (doe : Int)) / 146097 = era := by omega
  have h3 : ((era * 146097 + (doe : Int)) % 146097).toNat = doe := by omega
  simp only [civilFromDays, h1, h2, h3]

/-- Round trip: converting a valid civil date to a day number and back
yields the same date. -/
theorem civil_roundtrip (y : Int) (m d : Nat) (h1 : 1 ≤ m) (h2 : m ≤ 12) (h3 : 1 ≤ d)
    (h4 : d ≤ monthLength y m) :
    civilFromDays (daysFromCivil y m d) = (y, m, d) := by
  obtain ⟨ys, hys⟩ : ∃ ys : Int, (if m ≤ 2 then y - 1 else y) = ys := ⟨_, rfl⟩
  obtain ⟨era, hera⟩ : ∃ era : Int, ys / 400 = era := ⟨_, rfl⟩
  obtain ⟨yoe, hyoe⟩ : ∃ yoe : Nat, (ys % 400).toNat = yoe := ⟨_, rfl⟩
  obtain ⟨mp, hmp⟩ : ∃ mp : Nat, (if 2 < m then m - 3 else m + 9) = mp := ⟨_, rfl⟩
  have hyoe400 : yoe < 400 := by omega
  have hmp12 : mp < 12 := by
    rcases Nat.lt_or_ge 2 m with hc | hc
    · rw [if_pos hc] at hmp
      omega
    · rw [if_neg (by omega)] at hmp
      omega
  have hA : d - 1 < shiftedMonthLength mp (decide (yoeLeap yoe)) := by
    by_cases hm2 : m = 2
    · have hmp11 : mp = 11 := by
        rw [if_neg (by omega)] at hmp
        omega
      rw [if_pos (by omega)] at hys
      have hcorr : isLeap y ↔ yoeLeap yoe := by
        have := isLeap_iff_yoeLeap ys
        rw [hyoe] at this
        have hy1 : ys + 1 = y := by omega
        rw [hy1] at this
        exact this
      rw [hm2] at h4
      unfold monthLength at h4
      rw [if_pos rfl] at h4
      by_cases hL : yoeLeap yoe
      · rw [if_pos (hcorr.mpr hL)] at h4
        rw [hmp11]
        unfold shiftedMonthLength
        rw [if_pos rfl, if_pos (by simp [hL])]
        omega
      · rw [if_neg (fun hIL => hL (hcorr.mp hIL))] at h4
        rw [hmp11]
        unfold shiftedMonthLength
        rw [if_pos rfl, if_neg (by simp [hL])]
        omega
    · have := monthLength_eq_shifted y (decide (yoeLeap yoe)) m h1 h2 hm2
      rw [hmp] at this
      rw [this] at h4
      have hpos : 1 ≤ shiftedMonthLength mp (decide (yoeLeap yoe)) := by
        unfold shiftedMonthLength
        split_ifs <;> omega
      omega
  have h31 : d - 1 < 31 := by
    have := shiftedMonthLength_le mp (decide (yoeLeap yoe))
    omega
  have henc := mp_encode (decide (yoeLeap yoe)) mp hmp12 (d - 1) h31 hA
  have hifLen : (if decide (yoeLeap yoe) then (366 : Nat) else 365) = yoeLen yoe := by
    by_cases hL : yoeLeap yoe <;> simp [yoeLen, hL]
  have hB : doyFromMp mp + (d - 1) < yoeLen yoe := by
    rw [← hifLen]
    exact henc.2
  have hdoele : doeFromYoe yoe + (doyFromMp mp + (d - 1)) ≤ 146096 := by
    have := (yoe_endpoints yoe hyoe400).2.2
    omega
  have hD : daysFromCivil y m d =
      era * 146097 + ((doeFromYoe yoe + (doyFromMp mp + (d - 1)) : Nat) : Int) - 719468 := by
    simp only [daysFromCivil, hys, hera, hyoe, hmp]
    have hn : yoe * 365 + yoe / 4 - yoe / 100 + ((153 * mp + 2) / 5 + d - 1)
        = doeFromYoe yoe + (doyFromMp mp + (d - 1)) := by
      unfold doeFromYoe doyFromMp
      omega
    rw [hn]
  rw [hD, civilFromDays_decode era _ hdoele]
  have hyrec : yoeFromDoe (doeFromYoe yoe + (doyFromMp mp + (d - 1))) = yoe :=
    yoe_squeeze yoe _ hyoe400 hB
  rw [hyrec]
  have hdoyrec : doeFromYoe yoe + (doyFromMp mp + (d - 1)) - (365 * yoe + yoe / 4 - yoe / 100)
      = doyFromMp mp + (d - 1) := by
    unfold doeFromYoe
    omega
  rw [hdoyrec, henc.1]
  have hd : doyFromMp mp + (d - 1) - (153 * mp + 2) / 5 + 1 = d := by
    unfold doyFromMp
    omega
  rw [hd]
  have hm : (if mp < 10 then mp + 3 else mp - 9) = m := by
    rcases Nat.lt_or_ge 2 m with hc | hc
    · rw [if_pos hc] at hmp
      rw [if_pos (by omega)]
      omega
    · rw [if_neg (by omega)] at hmp
      rw [if_neg (by omega)]
      omega
  rw [hm]
  rcases le_or_lt m 2 with hc | hc
  · rw [if_pos hc] at hys ⊢
    have : (yoe : Int) + era * 400 + 1 = y := by omega
    rw [this]
  · rw [if_neg (by omega)] at hys
    rw [if_neg (by omega)]
    have : (yoe : Int) + era * 400 = y := by omega
    rw [this]

/-- The civil date produced by `civilFromDays` is always valid: month in
1..12 and day in 1..(length of that month of that year). -/
theorem civilFromDays_valid (z : Int) (y : Int) (m d : Nat)
    (heq : civilFromDays z = (y, m, d)) :
    1 ≤ m ∧ m ≤ 12 ∧ 1 ≤ d ∧ d ≤ monthLength y m := by
  obtain ⟨doe, hdoe⟩ : ∃ doe : Nat, ((z + 719468) % 146097).toNat = doe := ⟨_, rfl⟩
  obtain ⟨era, hera⟩ : ∃ era : Int, (z + 719468) / 146097 = era := ⟨_, rfl⟩
  have hdoele : doe ≤ 146096 := by omega
  have hz : z = era * 146097 + (doe : Int) - 719468 := by omega
  rw [hz, civilFromDays_decode era doe hdoele] at heq
  obtain ⟨yoe, hyoe⟩ : ∃ yoe : Nat, yoeFromDoe doe = yoe := ⟨_, rfl⟩
  rw [hyoe] at heq
  have hdec := yoe_decode doe hdoele
  rw [hyoe] at hdec
  obtain ⟨hyoe400, hlow, hdoy⟩ := hdec
  obtain ⟨doy, hdoy_def⟩ : ∃ doy : Nat, doe - (365 * yoe + yoe / 4 - yoe / 100) = doy := ⟨_, rfl⟩
  have hdoy_eq : doe - doeFromYoe yoe = doy := by
    unfold doeFromYoe
    omega
  rw [hdoy_def] at heq
  have hdoyLen : doy < yoeLen yoe := by omega
  have hdoyLen' : doy < (if decide (yoeLeap yoe) then (366 : Nat) else 365) := by
    have : (if decide (yoeLeap yoe) then (366 : Nat) else 365) = yoeLen yoe := by
      by_cases hL : yoeLeap yoe <;> simp [yoeLen, hL]
    omega
  have hmdec := mp_decode (decide (yoeLeap yoe)) doy hdoyLen'
  obtain ⟨mp, hmp⟩ : ∃ mp : Nat, mpFromDoy doy = mp := ⟨_, rfl⟩
  rw [hmp] at hmdec heq
  obtain ⟨hmp12, hmple, hdm1⟩ := hmdec
  have hdoyFromMp : (153 * mp + 2) / 5 = doyFromMp mp := rfl
  rw [hdoyFromMp] at heq
  obtain ⟨mm, hmm⟩ : ∃ mm : Nat, (if mp < 10 then mp + 3 else mp - 9) = mm := ⟨_, rfl⟩
  rw [hmm] at heq
  rw [Prod.mk.injEq, Prod.mk.injEq] at heq
  obtain ⟨hYY, hMM, hDD⟩ := heq
  subst hMM
  subst hDD
  subst hYY
  have hm1 : 1 ≤ mm := by
    rcases Nat.lt_or_ge mp 10 with hc | hc
    · rw [if_pos hc] at hmm
      omega
    · rw [if_neg (by omega)] at hmm
      omega
  have hm12 : mm ≤ 12 := by
    rcases Nat.lt_or_ge mp 10 with hc | hc
    · rw [if_pos hc] at hmm
      omega
    · rw [if_neg (by omega)] at hmm
      omega
  refine ⟨hm1, hm12, by omega, ?_⟩
  by_cases hm2 : mm = 2
  · have hmp11 : mp = 11 := by
      rcases Nat.lt_or_ge mp 10 with hc | hc
      · rw [if_pos hc] at hmm
        omega
      · rw [if_neg (by omega)] at hmm
        omega
    rw [hm2, if_pos (by omega)]
    unfold monthLength
    rw [if_pos rfl]
    have hcorr : isLeap ((yoe : Int) + era * 400 + 1) ↔ yoeLeap yoe := by
      have := isLeap_iff_yoeLeap ((yoe : Int) + era * 400)
      have htn : (((yoe : Int) + era * 400) % 400).toNat = yoe := by omega
      rw [htn] at this
      exact this
    rw [hmp11] at hdm1 hmple ⊢
    unfold shiftedMonthLength at hdm1
    rw [if_pos rfl] at hdm1
    by_cases hL : yoeLeap yoe
    · rw [if_pos (hcorr.mpr hL)]
      rw [if_pos (by simp [hL])] at hdm1
      omega
    · rw [if_neg (fun hIL => hL (hcorr.mp hIL))]
      rw [if_neg (by simp [hL])] at hdm1
      omega
  · have hshift : (if 2 < mm then mm - 3 else mm + 9) = mp := by
      rcases Nat.lt_or_ge mp 10 with hc | hc
      · rw [if_pos hc] at hmm
        rw [if_pos (by omega)]
        omega
      · rw [if_neg (by omega)] at hmm
        rw [if_neg (by omega)]
        omega
    have hml := monthLength_eq_shifted
      (if mm ≤ 2 then (yoe : Int) + era * 400 + 1 else (yoe : Int) + era * 400)
      (decide (yoeLeap yoe)) mm hm1 hm12 hm2
    rw [hshift] at hml
    rw [hml]
    omega

set_option maxHeartbeats 1600000 in
/-- First day of the next month comes right after the last day of any
month other than February, in the same calendar year. -/
theorem next_month_first (y : Int) (m : Nat) (h1 : 1 ≤ m) (h2 : m ≤ 11) (h3 : m ≠ 2) :
    daysFromCivil y (m + 1) 1 = daysFromCivil y m (monthLength y m) + 1 := by
  interval_cases m <;>
    first
    | exact absurd rfl h3
    | (simp [daysFromCivil, monthLength]
       omega)

set_option maxHeartbeats 1600000 in
/-- March 1st comes right after the last day of February (28 or 29
depending on the leap status of the year). -/
theorem march_first (y : Int) : daysFromCivil y 3 1 = daysFromCivil y 2 (monthLength y 2) + 1 := by
  simp only [daysFromCivil, monthLength]
  norm_num
  obtain ⟨r, hr⟩ : ∃ r : Nat, ((y - 1) % 400).toNat = r := ⟨_, rfl⟩
  have hr400 : r < 400 := by omega
  have hcorr : isLeap y ↔ yoeLeap r := by
    have h0 := isLeap_iff_yoeLeap (y - 1)
    rw [hr] at h0
    rw [sub_add_cancel] at h0
    exact h0
  rw [hr]
  by_cases hL : isLeap y
  · rw [if_pos hL]
    have hyl : yoeLeap r := hcorr.mp hL
    by_cases hr399 : r = 399
    · rw [hr399]
      omega
    · have hcontig := yoe_contig r (by omega)
      have hylen : yoeLen r = 366 := by rw [yoeLen, if_pos hyl]
      rw [hylen] at hcontig
      simp only [doeFromYoe] at hcontig
      omega
  · rw [if_neg hL]
    by_cases hr399 : r = 399
    · exact absurd (hcorr.mpr (Or.inr hr399)) hL
    · have hcontig := yoe_contig r (by omega)
      have hyl : ¬ yoeLeap r := fun hy => hL (hcorr.mpr hy)
      have hylen : yoeLen r = 365 := by rw [yoeLen, if_neg hyl]
      rw [hylen] at hcontig
      simp only [doeFromYoe] at hcontig
      omega

/-- January 1st of the next year comes right after December 31st. -/
theorem december_rollover (y : Int) :
    daysFromCivil (y + 1) 1 1 = daysFromCivil y 12 31 + 1 := by
  simp [daysFromCivil]
  omega

/-- The source's `last_day_of_month` (first of next month, with December
rolling over to January of `year + 1`, then one day back) computes the
calendar month length. -/
theorem last_day_eq_monthLength (y : Int) (m : Nat) (h1 : 1 ≤ m) (h2 : m ≤ 12) :
    TimeRange.last_day_of_month y m = monthLength y m := by
  simp only [TimeRange.last_day_of_month]
  by_cases h12 : m = 12
  · subst h12
    rw [if_neg (by omega)]
    have hdec : daysFromCivil (y + 1) 1 1 - 1 = daysFromCivil y 12 31 := by
      have := december_rollover y
      omega
    rw [hdec, civil_roundtrip y 12 31 (by omega) (by omega) (by omega) (by simp [monthLength])]
    simp [monthLength]
  · rw [if_pos (by omega)]
    have hnext : daysFromCivil y (m + 1) 1 - 1 = daysFromCivil y m (monthLength y m) := by
      by_cases h2m : m = 2
      · subst h2m
        show daysFromCivil y 3 1 - 1 = daysFromCivil y 2 (monthLength y 2)
        have := march_first y
        omega
      · have := next_month_first y m h1 (by omega) h2m
        omega
    rw [hnext, civil_roundtrip y m (monthLength y m) h1 h2 (monthLength_pos y m) (le_refl _)]

/-! Claim theorems. -/

/-- C1 (counterexample): the claim fails as stated outside the 0-100
range.  For the single sample with minimum `200` (and maximum `300`),
`aggregate_data_points` returns `Ok` with `minimum = 100` — the sentinel —
whereas the minimum over all per-sample minimums is `200 ≠ 100`. -/
theorem aggregate_min_outside_range_cex :
    aggregate_data_points
        (some [{ average := some 0, minimum := some 200, maximum := some 300 }]) =
      Except.ok { average := 0, maximum := 300, minimum := 100 } ∧
    (100 : ℚ) ≠ 200 := by
  constructor
  · simp [aggregate_data_points, aggLoop, toF64]
    norm_num [min_def, max_def]
  · decide

/-- C1 (amended): for every non-empty list of samples, of length fitting
in `u32`, in which every sample has average, minimum and maximum present,
`aggregate_data_points` returns `Ok` with `result.minimum` equal to the
minimum of the sentinel `100.0` together with all per-sample minimums
(i.e. at most 100, a lower bound of every per-sample minimum, and attained
at the sentinel or at some sample), and `result.maximum` equal to the
maximum of the sentinel `0.0` together with all per-sample maximums. -/
theorem aggregate_min_max_sentinel_clamped (l : List Datapoint)
    (hne : l ≠ []) (hlen : l.length < 2 ^ 32)
    (hp : ∀ dp ∈ l, dp.average.isSome ∧ dp.minimum.isSome ∧ dp.maximum.isSome) :
    ∃ r, aggregate_data_points (some l) = Except.ok r ∧
      r.minimum ≤ 100 ∧ (∀ dp ∈ l, r.minimum ≤ dp.minimum.getD 0) ∧
      (r.minimum = 100 ∨ ∃ dp ∈ l, dp.minimum.getD 0 = r.minimum) ∧
      0 ≤ r.maximum ∧ (∀ dp ∈ l, dp.maximum.getD 0 ≤ r.maximum) ∧
      (r.maximum = 0 ∨ ∃ dp ∈ l, dp.maximum.getD 0 = r.maximum) := by
  have hall : allPresent l = true := by
    simp only [allPresent, List.all_eq_true]
    intro dp hdp
    rcases hp dp hdp with ⟨h1, h2, h3⟩
    simp [h1, h2, h3]
  have hlen0 : l.length ≠ 0 := fun h0 => hne (List.length_eq_zero.mp h0)
  have heq : aggregate_data_points (some l) =
      Except.ok ⟨(0 + (avgVals l).sum) / l.length,
        (maxVals l).foldl max 0, (minVals l).foldl min 100⟩ := by
    rw [aggregate_data_points]
    simp only [Option.getD_some, aggLoop_eq, toF64]
    rw [if_neg hlen0, if_pos hlen, if_pos hall]
  refine ⟨_, heq, foldl_min_le_init _ _, ?_, ?_, foldl_max_init_le _ _, ?_, ?_⟩
  · intro dp hdp
    exact foldl_min_le_mem _ _ _ (List.mem_map_of_mem _ hdp)
  · rcases foldl_min_attained (minVals l) 100 with h | h
    · exact Or.inl h
    · rcases List.mem_map.mp h with ⟨dp, hdp, hv⟩
      exact Or.inr ⟨dp, hdp, hv⟩
  · intro dp hdp
    exact foldl_max_mem_le _ _ _ (List.mem_map_of_mem _ hdp)
  · rcases foldl_max_attained (maxVals l) 0 with h | h
    · exact Or.inl h
    · rcases List.mem_map.mp h with ⟨dp, hdp, hv⟩
      exact Or.inr ⟨dp, hdp, hv⟩

/-- C1 (witness): the amended theorem applied to the concrete singleton
sample list `[(avg 1, min 2, max 3)]`. -/
theorem aggregate_min_max_sentinel_clamped_witness :
    (([{ average := some 1, minimum := some 2, maximum := some 3 }] : List Datapoint) ≠ [] ∧
      ([{ average := some 1, minimum := some 2, maximum := some 3 }] : List Datapoint).length < 2 ^ 32 ∧
      ∀ dp ∈ ([{ average := some 1, minimum := some 2, maximum := some 3 }] : List Datapoint),
        dp.average.isSome ∧ dp.minimum.isSome ∧ dp.maximum.isSome) ∧
    (∃ r, aggregate_data_points
        (some [{ average := some 1, minimum := some 2, maximum := some 3 }]) = Except.ok r ∧
      r.minimum ≤ 100 ∧
      (∀ dp ∈ ([{ average := some 1, minimum := some 2, maximum := some 3 }] : List Datapoint),
        r.minimum ≤ dp.minimum.getD 0) ∧
      (r.minimum = 100 ∨
        ∃ dp ∈ ([{ average := some 1, minimum := some 2, maximum := some 3 }] : List Datapoint),
          dp.minimum.getD 0 = r.minimum) ∧
      0 ≤ r.maximum ∧
      (∀ dp ∈ ([{ average := some 1, minimum := some 2, maximum := some 3 }] : List Datapoint),
        dp.maximum.getD 0 ≤ r.maximum) ∧
      (r.maximum = 0 ∨
        ∃ dp ∈ ([{ average := some 1, minimum := some 2, maximum := some 3 }] : List Datapoint),
          dp.maximum.getD 0 = r.maximum)) :=
  ⟨⟨by decide, by decide, by decide⟩,
    aggregate_min_max_sentinel_clamped _ (by decide) (by decide) (by decide)⟩

/-- C2: for every input instant, `TimeRange::try_from` succeeds with a
range whose start is local (UTC+9) wall clock 00:00:00 on day 1 of the
input's local calendar month and year, whose end is local wall clock
23:59:59 on the last day of that same month (the source's
`last_day_of_month`, which provably equals the calendar month length,
with December rolling over to January of `year + 1`), and `start ≤ end`. -/
theorem try_from_calendar_month_aligned (t : Int) :
    ∃ r : TimeRange,
      TimeRange.try_from t = Except.ok r ∧
      localCivil r.start = ((localCivil t).1, (localCivil t).2.1, 1) ∧
      localSecondOfDay r.start = 0 ∧
      localCivil r.stop = ((localCivil t).1, (localCivil t).2.1,
        TimeRange.last_day_of_month (localCivil t).1 (localCivil t).2.1) ∧
      localSecondOfDay r.stop = 86399 ∧
      TimeRange.last_day_of_month (localCivil t).1 (localCivil t).2.1 =
        monthLength (localCivil t).1 (localCivil t).2.1 ∧
      r.start ≤ r.stop := by
  obtain ⟨⟨y, md⟩, hc⟩ : ∃ c, localCivil t = c := ⟨_, rfl⟩
  obtain ⟨m, d⟩ := md
  have hv := civilFromDays_valid ((t + tokyoOffset) / 86400) y m d hc
  obtain ⟨hm1, hm12, hd1, hdle⟩ := hv
  have hld := last_day_eq_monthLength y m hm1 hm12
  have hmlpos := monthLength_pos y m
  have htf : TimeRange.try_from t = Except.ok
      { start := daysFromCivil y m 1 * 86400 - tokyoOffset,
        stop := daysFromCivil y m (TimeRange.last_day_of_month y m) * 86400
          + (23 * 3600 + 59 * 60 + 59) - tokyoOffset } := by
    simp [TimeRange.try_from, fromLocalSingle, hc]
  rw [hc, htf]
  have harg1 : (daysFromCivil y m 1 * 86400 - tokyoOffset + tokyoOffset) / 86400
      = daysFromCivil y m 1 := by omega
  have harg2 : (daysFromCivil y m (TimeRange.last_day_of_month y m) * 86400
        + (23 * 3600 + 59 * 60 + 59) - tokyoOffset + tokyoOffset) / 86400
      = daysFromCivil y m (TimeRange.last_day_of_month y m) := by omega
  have hmono : daysFromCivil y m 1 ≤ daysFromCivil y m (TimeRange.last_day_of_month y m) := by
    rw [hld]
    simp only [daysFromCivil]
    omega
  refine ⟨_, rfl, ?_, ?_, ?_, ?_, ?_, ?_⟩
  · show localCivil (daysFromCivil y m 1 * 86400 - tokyoOffset) = (y, m, 1)
    rw [localCivil, harg1]
    exact civil_roundtrip y m 1 hm1 hm12 (le_refl 1) hmlpos
  · show localSecondOfDay (daysFromCivil y m 1 * 86400 - tokyoOffset) = 0
    rw [localSecondOfDay]
    omega
  · show localCivil (daysFromCivil y m (TimeRange.last_day_of_month y m) * 86400
        + (23 * 3600 + 59 * 60 + 59) - tokyoOffset) = (y, m, TimeRange.last_day_of_month y m)
    rw [localCivil, harg2]
    exact civil_roundtrip y m (TimeRange.last_day_of_month y m) hm1 hm12 (by omega) (by omega)
  · show localSecondOfDay (daysFromCivil y m (TimeRange.last_day_of_month y m) * 86400
        + (23 * 3600 + 59 * 60 + 59) - tokyoOffset) = 86399
    rw [localSecondOfDay]
    omega
  · exact hld
  · show daysFromCivil y m 1 * 86400 - tokyoOffset ≤
      daysFromCivil y m (TimeRange.last_day_of_month y m) * 86400
        + (23 * 3600 + 59 * 60 + 59) - tokyoOffset
    omega

/-- C3 (counterexample): the claim fails as stated for lists whose length
does not fit in `u32`: the `u32::try_from(len)` check runs before the
field checks, so a list of `2 ^ 32` samples all of whose fields are
absent yields `TryFromIntError`, not the missing-field error
`NoneValue`. -/
theorem aggregate_u32_overflow_cex :
    aggregate_data_points
        (some (List.replicate (2 ^ 32) { average := none, minimum := none, maximum := none })) =
      Except.error MetricsNotifierError.TryFromIntError ∧
    MetricsNotifierError.TryFromIntError ≠ MetricsNotifierError.NoneValue := by
  constructor
  · rw [aggregate_data_points]
    simp only [Option.getD_some, List.length_replicate]
    norm_num
  · decide

/-- C3 (amended): for every list of samples whose length fits in `u32`
that contains at least one sample with an absent average, minimum or
maximum field, `aggregate_data_points` returns the missing-field error
`MetricsNotifierError.NoneValue` and no aggregated result. -/
theorem aggregate_missing_field_errors (l : List Datapoint) (hlen : l.length < 2 ^ 32)
    (h : ∃ dp ∈ l, dp.average = none ∨ dp.minimum = none ∨ dp.maximum = none) :
    aggregate_data_points (some l) = Except.error MetricsNotifierError.NoneValue := by
  rcases h with ⟨dp, hdp, hmiss⟩
  have hlen0 : l.length ≠ 0 := by
    cases l
    · simp at hdp
    · simp
  have hall : ¬ (allPresent l = true) := by
    simp only [allPresent, List.all_eq_true]
    intro H
    rcases Bool.and_eq_true _ _ |>.mp (H dp hdp) with ⟨h12, h3⟩
    rcases Bool.and_eq_true _ _ |>.mp h12 with ⟨h1, h2⟩
    rcases hmiss with hm | hm | hm <;> simp [hm] at h1 h2 h3
  rw [aggregate_data_points]
  simp only [Option.getD_some, aggLoop_eq]
  rw [if_neg hlen0, if_pos hlen, if_neg hall]

/-- C3 (witness): the amended theorem applied to the singleton list whose
sample has all three fields absent. -/
theorem aggregate_missing_field_errors_witness :
    (([{ average := none, minimum := none, maximum := none }] : List Datapoint).length < 2 ^ 32 ∧
      ∃ dp ∈ ([{ average := none, minimum := none, maximum := none }] : List Datapoint),
        dp.average = none ∨ dp.minimum = none ∨ dp.maximum = none) ∧
    aggregate_data_points (some [{ average := none, minimum := none, maximum := none }]) =
      Except.error MetricsNotifierError.NoneValue :=
  ⟨⟨by decide, by decide⟩, aggregate_missing_field_errors _ (by decide) (by decide)⟩

/-- C4: for every pair of sample lists that are permutations of each
other, `aggregate_data_points` returns the same outcome — the very same
`Except` value, so in particular either the same error or identical
average, minimum and maximum. -/
theorem aggregate_perm_invariant (l₁ l₂ : List Datapoint) (h : l₁.Perm l₂) :
    aggregate_data_points (some l₁) = aggregate_data_points (some l₂) := by
  have hlen := h.length_eq
  have hall := allPresent_of_perm l₁ l₂ h
  have hsum := (h.map fun dp => dp.average.getD 0).sum_eq
  have hmin := List.Perm.foldl_eq (f := min) (h.map fun dp => dp.minimum.getD 0) (100 : ℚ)
  have hmax := List.Perm.foldl_eq (f := max) (h.map fun dp => dp.maximum.getD 0) (0 : ℚ)
  simp only [aggregate_data_points, Option.getD_some, aggLoop_eq, avgVals, minVals, maxVals,
    hlen, hall, hsum, hmin, hmax]

/-- C4 (witness): the permutation theorem applied to a concrete
two-element list and its transposition. -/
theorem aggregate_perm_invariant_witness :
    (([{ average := some 1, minimum := some 2, maximum := some 3 },
        { average := some 4, minimum := some 5, maximum := some 6 }] : List Datapoint).Perm
      [{ average := some 4, minimum := some 5, maximum := some 6 },
        { average := some 1, minimum := some 2, maximum := some 3 }]) ∧
    aggregate_data_points (some
        [{ average := some 1, minimum := some 2, maximum := some 3 },
          { average := some 4, minimum := some 5, maximum := some 6 }]) =
      aggregate_data_points (some
        [{ average := some 4, minimum := some 5, maximum := some 6 },
          { average := some 1, minimum := some 2, maximum := some 3 }]) :=
  ⟨List.Perm.swap _ _ [], aggregate_perm_invariant _ _ (List.Perm.swap _ _ [])⟩

/-- C5: on the four-sample input of the spec's concrete scenario the
aggregator returns exactly `{average := 43.95, maximum := 93.0,
minimum := 11.0}`, and the average is the exact sum of the four averages
divided once by 4. -/
theorem aggregate_concrete_scenario :
    aggregate_data_points (some [
      { average := some 55.5, minimum := some 11.0, maximum := some 91.0 },
      { average := some 28.8, minimum := some 13.0, maximum := some 92.0 },
      { average := some 40.2, minimum := some 12.0, maximum := some 93.0 },
      { average := some 51.3, minimum := some 12.0, maximum := some 93.0 }]) =
    Except.ok { average := 43.95, maximum := 93.0, minimum := 11.0 } ∧
    (55.5 + 28.8 + 40.2 + 51.3 : ℚ) / 4 = 43.95 := by
  constructor
  · simp [aggregate_data_points, aggLoop, toF64]
    norm_num [min_def, max_def]
  · norm_num

/-- C6: applied to an empty sample list, `aggregate_data_points` returns
`Ok` with the default result, whose fields are all zero — a successful
outcome, not an error. -/
theorem aggregate_empty_default :
    aggregate_data_points (some []) = Except.ok AggregatedMetrics.default ∧
    AggregatedMetrics.default = { average := 0, maximum := 0, minimum := 0 } :=
  ⟨rfl, rfl⟩

set_option maxRecDepth 10000 in
/-- C7: at the reference instant 2020-12-01T15:00:00Z (epoch second
1606834800), `TimeRange::try_from` returns `Ok` with
start = 2020-11-30T15:00:00Z (1606748400) and
end = 2020-12-31T14:59:59Z (1609426799). -/
theorem try_from_reference_instant :
    TimeRange.try_from 1606834800 = Except.ok { start := 1606748400, stop := 1609426799 } := by
  decide

/-- C8: `TimeRange::try_from` succeeds on every input instant: the fixed
UTC+9 offset resolves every constructed local wall-clock time to exactly
one absolute instant (`fromLocalSingle` is always `some`), so the
`NoneValue` error branch guarding the resolution is never taken. -/
theorem try_from_always_ok (t : Int) :
    ∃ r : TimeRange, TimeRange.try_from t = Except.ok r :=
  ⟨_, rfl⟩

/-- C9: the near-duplicate drafts in `client.rs` are behaviorally
equivalent to the final components: on every instant the two
`TimeRange::try_from` versions produce identical start/end instants and
fail in the same cases, and on every (optional) list of data points the
two `aggregate_data_points` versions produce identical aggregated values
and fail in the same cases — each draft result being exactly the final
result transported along the field-for-field struct conversions and the
error renaming `errRename`. -/
theorem drafts_behaviorally_equivalent :
    (∀ t : Int, ClientTimeRange.try_from t =
      Except.mapError errRename ((TimeRange.try_from t).map timeRangeToClient)) ∧
    (∀ dps : Option (List Datapoint), client_aggregate_data_points dps =
      Except.mapError errRename ((aggregate_data_points dps).map metricsToClient)) := by
  constructor
  · intro t
    rfl
  · intro dps
    rw [client_aggregate_data_points, aggregate_data_points]
    by_cases h0 : (dps.getD []).length = 0
    · rw [if_pos h0, if_pos h0]
      rfl
    · rw [if_neg h0, if_neg h0]
      by_cases h32 : (dps.getD []).length < 2 ^ 32
      · rw [if_pos h32, if_pos h32, clientAggLoop_eq_mapError]
        cases hagg : aggLoop (dps.getD []) 0 100 0 with
        | error e => simp [Except.mapError, Except.map]
        | ok v =>
          obtain ⟨t, mn, mx⟩ := v
          simp [Except.mapError, Except.map, toF64, metricsToClient]
      · rw [if_neg h32, if_neg h32]
        rfl

/-- C10: whenever `aggregate_data_points` returns `Ok` on a non-empty
sample list, the result satisfies `minimum ≤ 100` and `maximum ≥ 0`: the
running minimum starts at the sentinel 100.0 and only decreases, and the
running maximum starts at the sentinel 0.0 and only increases. -/
theorem aggregate_result_bounds (l : List Datapoint) (r : AggregatedMetrics)
    (hne : l ≠ []) (h : aggregate_data_points (some l) = Except.ok r) :
    r.minimum ≤ 100 ∧ 0 ≤ r.maximum := by
  have hlen : l.length ≠ 0 := fun h0 => hne (List.length_eq_zero.mp h0)
  rw [aggregate_data_points] at h
  simp only [Option.getD_some, aggLoop_eq] at h
  rw [if_neg hlen] at h
  by_cases h32 : l.length < 2 ^ 32
  · rw [if_pos h32] at h
    by_cases hall : allPresent l
    · rw [if_pos hall] at h
      simp only [toF64] at h
      cases h
      exact ⟨foldl_min_le_init _ _, foldl_max_init_le _ _⟩
    · rw [if_neg hall] at h
      cases h
  · rw [if_neg h32] at h
    cases h

/-- C10 (witness): the bounds theorem applied to the concrete singleton
sample list `[(avg 4, min 6, max 8)]`, whose aggregate is evaluated by
the helper lemma `aggregate_eval_single`. -/
theorem aggregate_result_bounds_witness :
    (([{ average := some 4, minimum := some 6, maximum := some 8 }] : List Datapoint) ≠ [] ∧
      aggregate_data_points (some [{ average := some 4, minimum := some 6, maximum := some 8 }]) =
        Except.ok { average := 4, maximum := 8, minimum := 6 }) ∧
    ({ average := 4, maximum := 8, minimum := 6 } : AggregatedMetrics).minimum ≤ 100 ∧
    0 ≤ ({ average := 4, maximum := 8, minimum := 6 } : AggregatedMetrics).maximum :=
  ⟨⟨by decide, aggregate_eval_single⟩,
    aggregate_result_bounds _ _ (by decide) aggregate_eval_single⟩
